import Mathlib

/-!
Verification of the Feature edit-form core (`src/ui/src/components/EditFeatureForm.tsx`).

The component's pure logic is embedded shallowly:

* `Step`, `Feature`, `EditBuffer` mirror the TypeScript data shapes.
* `initSteps` / `initCounter` embed the `useState` initializers (lines 24-30).
* `handleRemoveStep`, `handleStepChange` embed the step handlers (lines 39-47).
* `isValid` (line 74), `hasChanges` (lines 77-83) and `normalizeSteps`
  (the step normalization computed identically at lines 53-55 and line 77)
  embed the derived values.
* The session dynamics (React state updates, the disabled-gate on the submit
  button at line 224, the render guard on the remove button at line 198, and
  the async mutation settling at lines 57-71) are embedded as a step function
  `applyEvent` on an explicit `SessionState`, with ghost observation fields
  (`usedIds`, `requests`, `resolved`, `savedCalls`, `closeCalls`) recording
  the history needed to state the claims; ghost fields never influence the
  computed dynamics.

Modelling conventions:
* JavaScript string truthiness on a trimmed string is non-emptiness.
* `JSON.stringify` comparison of two arrays of strings (line 83) is equality
  of the string lists: stringification of a string array is injective, since
  every element is quoted and escaped, so `!==` on the encodings is exactly
  inequality of the lists.
* `parseInt(s, 10)` is embedded as `jsParseInt : String → Option Int`, with
  `none` playing the role of `NaN`.  In JavaScript `NaN !== x` holds for every
  number `x`, which matches `none ≠ some x`.  (JavaScript number precision is
  idealized to exact integers; no claim depends on values beyond 2^53.)
* Trimming is embedded as `jsTrim`, stripping leading and trailing
  whitespace like `String.prototype.trim`; the exact whitespace alphabet of
  JavaScript's `trim` is irrelevant to every claim, and the embedded one
  covers the ASCII whitespace code points.
-/

/-- A step row in the edit buffer: source `interface Step` (lines 6-9). -/
structure Step where
  id : String
  value : String
  deriving DecidableEq, Repr

/-- The Feature entity snapshot being edited (external, read-only). -/
structure Feature where
  id : String
  category : String
  name : String
  description : String
  priority : Int
  steps : List String
  deriving DecidableEq, Repr

/-- Local step id, source template literal `formId-step-i` (lines 26, 27, 35). -/
def mkStepId (formId : String) (i : Nat) : String :=
  formId ++ "-step-" ++ Nat.repr i

/-- Initial step list, source `useState<Step[]>` initializer (lines 24-28):
one entry per feature step, or a single empty entry when there are none. -/
def initSteps (formId : String) (steps : List String) : List Step :=
  if steps.length > 0 then
    steps.mapIdx (fun i v => { id := mkStepId formId i, value := v })
  else
    [{ id := mkStepId formId 0, value := "" }]

/-- Initial id counter, source `useState(feature.steps.length || 1)` (line 30). -/
def initCounter (steps : List String) : Nat :=
  if steps.length = 0 then 1 else steps.length

/-- The mutable edit buffer: the scalar `useState`s (lines 20-23) plus the
step list.  `priority` is held as raw text, as in the source. -/
structure EditBuffer where
  category : String
  name : String
  description : String
  priority : String
  steps : List Step
  deriving DecidableEq, Repr

/-- Whitespace as stripped by JavaScript `trim` (the ASCII whitespace code
points; the exotic Unicode space separators behave identically for every
claim below). -/
def isJsWs (c : Char) : Bool :=
  c == ' ' || c == '\t' || c == '\n' || c == '\r' || c == '\x0b' || c == '\x0c'

/-- Embedding of `String.prototype.trim`: strip leading and trailing
whitespace. -/
def jsTrim (s : String) : String :=
  ⟨((s.data.dropWhile isJsWs).reverse.dropWhile isJsWs).reverse⟩

/-- Numeric value of a decimal digit character. -/
def digitVal (c : Char) : Nat := c.toNat - 48

/-- Longest digit-only leading segment, as consumed by `parseInt`. -/
def leadingDigits : List Char → List Char
  | [] => []
  | c :: cs => if c.isDigit then c :: leadingDigits cs else []

/-- Decimal value of a digit list, most significant first. -/
def digitsToNatAux (a : Nat) (cs : List Char) : Nat :=
  cs.foldl (fun x c => 10 * x + digitVal c) a

/-- Decimal value of a digit list starting from zero. -/
def digitsToNat (cs : List Char) : Nat := digitsToNatAux 0 cs

/-- Parse the leading digit run of a character list; `none` when there is no
leading digit (the `NaN` case of `parseInt`). -/
def parseDigits (cs : List Char) : Option Nat :=
  match leadingDigits cs with
  | [] => none
  | ds => some (digitsToNat ds)

/-- Embedding of `parseInt(s, 10)` (lines 65, 82): skip surrounding
whitespace (trailing whitespace is a non-digit, so trimming it is
indifferent), an optional sign, then the longest leading digit run;
`none` models `NaN`. -/
def jsParseInt (s : String) : Option Int :=
  match (jsTrim s).data with
  | '-' :: cs => (parseDigits cs).map (fun n => -(n : Int))
  | '+' :: cs => (parseDigits cs).map (fun n => (n : Int))
  | cs => (parseDigits cs).map (fun n => (n : Int))

/-- Step normalization: trim every value and drop the blank ones, keeping
order.  Computed twice in the source with identical meaning: `filteredSteps`
(lines 53-55, `.filter(s => s.length > 0)`) and `currentSteps` (line 77,
`.filter(s => s)`, truthiness = non-emptiness). -/
def normalizeSteps (steps : List Step) : List String :=
  (steps.map (fun s => jsTrim s.value)).filter (fun s => s != "")

/-- The same normalization on a raw string list; used to phrase canonicity
of an original feature's step list. -/
def normalizeStrings (ss : List String) : List String :=
  (ss.map jsTrim).filter (fun s => s != "")

/-- Validity, source line 74: `category.trim() && name.trim() &&
description.trim()` — all three trimmed scalars non-empty. -/
def isValid (b : EditBuffer) : Bool :=
  jsTrim b.category != "" && jsTrim b.name != "" && jsTrim b.description != ""

/-- Dirty check, source lines 78-83. -/
def hasChanges (f : Feature) (b : EditBuffer) : Bool :=
  jsTrim b.category != f.category ||
  jsTrim b.name != f.name ||
  jsTrim b.description != f.description ||
  jsParseInt b.priority != some f.priority ||
  normalizeSteps b.steps != f.steps

/-- Source `handleRemoveStep` (lines 39-41): drop the entry with that id. -/
def handleRemoveStep (steps : List Step) (id : String) : List Step :=
  steps.filter (fun s => s.id != id)

/-- Source `handleStepChange` (lines 43-47): replace the value of the entry
with that id, keep everything else. -/
def handleStepChange (steps : List Step) (id : String) (v : String) : List Step :=
  steps.map (fun s => if s.id == id then { s with value := v } else s)

/-- Source `handleAddStep` (lines 34-37): append a fresh empty entry. -/
def handleAddStep (steps : List Step) (formId : String) (counter : Nat) : List Step :=
  steps ++ [{ id := mkStepId formId counter, value := "" }]

/-- The update payload built at submit time (lines 60-66). -/
structure UpdatePayload where
  category : String
  name : String
  description : String
  steps : List String
  priority : Option Int
  deriving DecidableEq, Repr

/-- Build the payload from the buffer (lines 53-55 and 60-66). -/
def buildUpdate (b : EditBuffer) : UpdatePayload :=
  { category := jsTrim b.category
    name := jsTrim b.name
    description := jsTrim b.description
    steps := normalizeSteps b.steps
    priority := jsParseInt b.priority }

/-- Initial edit buffer at session start (lines 20-28);
`String(feature.priority)` is decimal rendering of the integer. -/
def initBuffer (formId : String) (f : Feature) : EditBuffer :=
  { category := f.category
    name := f.name
    description := f.description
    priority := toString f.priority
    steps := initSteps formId f.steps }

/-- Outcome of the external mutation call: success, or failure carrying an
optional human-readable message (`some m` = an `Error` with message `m`,
`none` = a thrown non-`Error` value, line 70). -/
inductive MutationOutcome where
  | success : MutationOutcome
  | failure : Option String → MutationOutcome
  deriving DecidableEq, Repr

/-- The discrete user/environment events that drive the session. -/
inductive Event where
  | setCategory : String → Event
  | setName : String → Event
  | setDescription : String → Event
  | setPriority : String → Event
  | addStepClick : Event
  | removeStepClick : String → Event
  | stepEdit : String → String → Event
  | submitClick : Event
  | mutationSettled : MutationOutcome → Event
  | dismissError : Event
  | cancelClick : Event
  deriving DecidableEq, Repr

/-- Full session state: the component's React state plus ghost observation
history.  `submitting` is `updateFeature.isPending`.  Ghost fields:
`usedIds` records every local id ever created, `requests` every mutation
call issued, `resolved` how many settled, `savedCalls` / `closeCalls` how
often `onSaved` / `onClose` were invoked. -/
structure SessionState where
  formId : String
  feature : Feature
  buffer : EditBuffer
  stepCounter : Nat
  errorMessage : Option String
  submitting : Bool
  usedIds : List String
  requests : List UpdatePayload
  resolved : Nat
  savedCalls : Nat
  closeCalls : Nat
  deriving DecidableEq, Repr

/-- Session state right after mount (lines 19-30). -/
def initState (formId : String) (f : Feature) : SessionState :=
  { formId := formId
    feature := f
    buffer := initBuffer formId f
    stepCounter := initCounter f.steps
    errorMessage := none
    submitting := false
    usedIds := (initSteps formId f.steps).map Step.id
    requests := []
    resolved := 0
    savedCalls := 0
    closeCalls := 0 }

/-- One step of the session dynamics.  Field edits always go through (the
inputs are never disabled).  `removeStepClick` carries the render guard of
line 198 (`steps.length > 1`): the remove button for a row exists only when
more than one row is shown, so the event is a no-op otherwise.
`submitClick` carries the disabled-gate of line 224
(`!isValid || !hasChanges || updateFeature.isPending`): a disabled submit
button emits no submission.  A mutation can settle only while one is in
flight; success runs `onSaved()` (line 68), failure stores the message or
the fallback text (line 70). -/
def applyEvent (st : SessionState) : Event → SessionState
  | .setCategory s => { st with buffer := { st.buffer with category := s } }
  | .setName s => { st with buffer := { st.buffer with name := s } }
  | .setDescription s => { st with buffer := { st.buffer with description := s } }
  | .setPriority s => { st with buffer := { st.buffer with priority := s } }
  | .addStepClick =>
    { st with
      buffer := { st.buffer with
        steps := handleAddStep st.buffer.steps st.formId st.stepCounter }
      stepCounter := st.stepCounter + 1
      usedIds := st.usedIds ++ [mkStepId st.formId st.stepCounter] }
  | .removeStepClick id =>
    if st.buffer.steps.length > 1 then
      { st with buffer := { st.buffer with
          steps := handleRemoveStep st.buffer.steps id } }
    else st
  | .stepEdit id v =>
    { st with buffer := { st.buffer with
        steps := handleStepChange st.buffer.steps id v } }
  | .submitClick =>
    if isValid st.buffer && hasChanges st.feature st.buffer && !st.submitting then
      { st with
        errorMessage := none
        submitting := true
        requests := st.requests ++ [buildUpdate st.buffer] }
    else st
  | .mutationSettled o =>
    if st.submitting then
      match o with
      | .success =>
        { st with
          submitting := false
          resolved := st.resolved + 1
          savedCalls := st.savedCalls + 1 }
      | .failure m =>
        { st with
          submitting := false
          resolved := st.resolved + 1
          errorMessage := some (m.getD "Failed to update feature") }
    else st
  | .dismissError => { st with errorMessage := none }
  | .cancelClick => { st with closeCalls := st.closeCalls + 1 }

/-- States reachable in one session opened on `f` with form id `formId`. -/
inductive Reachable (formId : String) (f : Feature) : SessionState → Prop
  | init : Reachable formId f (initState formId f)
  | step : ∀ (st : SessionState) (e : Event),
      Reachable formId f st → Reachable formId f (applyEvent st e)

/-- Session invariant: step ids are distinct, every listed id was created in
this session, every created id is below the counter, the list never drains,
and the number of issued mutation calls matches the settled ones plus the
one possibly in flight. -/
def SessionInv (st : SessionState) : Prop :=
  (st.buffer.steps.map Step.id).Nodup ∧
  (∀ s ∈ st.buffer.steps, s.id ∈ st.usedIds) ∧
  (∀ u ∈ st.usedIds, ∃ k, k < st.stepCounter ∧ u = mkStepId st.formId k) ∧
  1 ≤ st.buffer.steps.length ∧
  st.requests.length = st.resolved + (if st.submitting then 1 else 0)

/-- The spec's five comparison axes, stated propositionally. -/
def axesDiffer (f : Feature) (b : EditBuffer) : Prop :=
  jsTrim b.category ≠ f.category ∨
  jsTrim b.name ≠ f.name ∨
  jsTrim b.description ≠ f.description ∨
  jsParseInt b.priority ≠ some f.priority ∨
  normalizeSteps b.steps ≠ f.steps

/-- Sample feature with no steps (concrete witness data). -/
def featZero : Feature :=
  { id := "F1"
    category := "UI"
    name := "Login form"
    description := "desc"
    priority := 2
    steps := [] }

/-- Sample feature with three steps (concrete witness data). -/
def featThree : Feature :=
  { id := "F2"
    category := "UI"
    name := "Login form"
    description := "desc"
    priority := 2
    steps := ["click", "type", "submit"] }

/-- Sample two-row step list (concrete witness data). -/
def twoSteps : List Step :=
  [{ id := "f-step-0", value := "x" }, { id := "f-step-1", value := "y" }]

/-- Sample in-flight session state (concrete witness data). -/
def stInFlight : SessionState :=
  { formId := "f"
    feature := featThree
    buffer := initBuffer "f" featThree
    stepCounter := 3
    errorMessage := none
    submitting := true
    usedIds := (initSteps "f" featThree.steps).map Step.id
    requests := [buildUpdate (initBuffer "f" featThree)]
    resolved := 0
    savedCalls := 0
    closeCalls := 0 }

/-- Decimal digit rendering used by `Nat.repr`. -/
def decDigits (n : Nat) : List Char := Nat.toDigits 10 n

lemma toDigitsCore_shift (fuel : Nat) :
    ∀ (n : Nat) (ds : List Char),
      Nat.toDigitsCore 10 fuel n ds = Nat.toDigitsCore 10 fuel n [] ++ ds := by
  induction fuel with
  | zero => intro n ds; rfl
  | succ fuel ih =>
    intro n ds
    simp only [Nat.toDigitsCore]
    by_cases h : n / 10 = 0
    · simp [h]
    · simp only [h, if_false]
      rw [ih (n / 10) (Nat.digitChar (n % 10) :: ds),
          ih (n / 10) [Nat.digitChar (n % 10)]]
      simp

lemma toDigitsCore_of_lt : ∀ (n fuel : Nat), n < fuel →
    Nat.toDigitsCore 10 fuel n [] = decDigits n := by
  intro n
  induction n using Nat.strong_induction_on with
  | _ n ih =>
    intro fuel hf
    match fuel, hf with
    | fuel + 1, hf =>
      by_cases h : n / 10 = 0
      · simp only [Nat.toDigitsCore, h, if_true, decDigits, Nat.toDigits]
      · have h10 : 10 ≤ n := by omega
        have hlt : n / 10 < n := Nat.div_lt_self (by omega) (by omega)
        have e1 : Nat.toDigitsCore 10 (fuel + 1) n [] =
            Nat.toDigitsCore 10 fuel (n / 10) [Nat.digitChar (n % 10)] := by
          simp only [Nat.toDigitsCore, h, if_false]
        have e2 : decDigits n =
            Nat.toDigitsCore 10 n (n / 10) [Nat.digitChar (n % 10)] := by
          simp only [decDigits, Nat.toDigits, Nat.toDigitsCore, h, if_false]
        rw [e1, toDigitsCore_shift fuel (n / 10) [Nat.digitChar (n % 10)],
            ih (n / 10) hlt fuel (by omega), e2,
            toDigitsCore_shift n (n / 10) [Nat.digitChar (n % 10)],
            ih (n / 10) hlt n hlt]

lemma digitVal_digitChar (m : Nat) (h : m < 10) :
    digitVal (Nat.digitChar m) = m := by
  interval_cases m <;> rfl

lemma digitsToNatAux_append (a : Nat) (xs ys : List Char) :
    digitsToNatAux a (xs ++ ys) = digitsToNatAux (digitsToNatAux a xs) ys := by
  simp [digitsToNatAux, List.foldl_append]

lemma digitsToNatAux_decDigits : ∀ (n a : Nat),
    digitsToNatAux a (decDigits n) = a * 10 ^ (decDigits n).length + n := by
  intro n
  induction n using Nat.strong_induction_on with
  | _ n ih =>
    intro a
    by_cases h : n / 10 = 0
    · have hd : decDigits n = [Nat.digitChar (n % 10)] := by
        simp only [decDigits, Nat.toDigits, Nat.toDigitsCore, h, if_true]
      rw [hd]
      simp only [digitsToNatAux, List.foldl_cons, List.foldl_nil,
        digitVal_digitChar (n % 10) (Nat.mod_lt _ (by omega)),
        List.length_cons, List.length_nil, pow_one, zero_add]
      omega
    · have hlt : n / 10 < n := Nat.div_lt_self (by omega) (by omega)
      have hd : decDigits n = decDigits (n / 10) ++ [Nat.digitChar (n % 10)] := by
        have e2 : decDigits n =
            Nat.toDigitsCore 10 n (n / 10) [Nat.digitChar (n % 10)] := by
          simp only [decDigits, Nat.toDigits, Nat.toDigitsCore, h, if_false]
        rw [e2, toDigitsCore_shift, toDigitsCore_of_lt (n / 10) n hlt]
      rw [hd, digitsToNatAux_append, ih (n / 10) hlt a]
      simp only [digitsToNatAux, List.foldl_cons, List.foldl_nil,
        digitVal_digitChar (n % 10) (Nat.mod_lt _ (by omega)),
        List.length_append, List.length_cons, List.length_nil, pow_succ, zero_add]
      rw [← Nat.mul_assoc]
      generalize a * 10 ^ (decDigits (n / 10)).length = u
      omega

lemma digitsToNat_decDigits (n : Nat) : digitsToNat (decDigits n) = n := by
  have h := digitsToNatAux_decDigits n 0
  simpa [digitsToNat] using h

lemma decDigits_inj {a b : Nat} (h : decDigits a = decDigits b) : a = b := by
  have ha := digitsToNat_decDigits a
  rw [h, digitsToNat_decDigits] at ha
  omega

lemma natRepr_inj {a b : Nat} (h : Nat.repr a = Nat.repr b) : a = b := by
  apply decDigits_inj
  have h2 : (decDigits a).asString = (decDigits b).asString := h
  exact congrArg String.data h2

lemma mkStepId_inj (formId : String) {a b : Nat}
    (h : mkStepId formId a = mkStepId formId b) : a = b := by
  apply natRepr_inj
  have hd := congrArg String.data h
  simp only [mkStepId, String.data_append, List.append_assoc] at hd
  have h1 := List.append_cancel_left hd
  have h2 := List.append_cancel_left h1
  exact String.ext h2

lemma mkStepId_injective (formId : String) : Function.Injective (mkStepId formId) :=
  fun _ _ h => mkStepId_inj formId h

lemma initSteps_map_id (formId : String) (ss : List String) :
    (initSteps formId ss).map Step.id =
      (List.range (initCounter ss)).map (mkStepId formId) := by
  by_cases h : ss.length = 0
  · have hnil : ss = [] := List.length_eq_zero.mp h
    subst hnil
    simp [initSteps, initCounter, List.range_succ]
  · rw [initSteps, if_pos (by omega), initCounter, if_neg h]
    apply List.ext_getElem?
    intro i
    by_cases hi : i < ss.length
    · simp [List.getElem?_mapIdx, List.getElem?_range, hi,
        List.getElem?_eq_getElem hi]
    · have hle : ss.length ≤ i := by omega
      rw [List.getElem?_eq_none (by simp [hle]), List.getElem?_eq_none (by simp [hle])]

lemma initSteps_map_value (formId : String) (ss : List String) (h : ss ≠ []) :
    (initSteps formId ss).map Step.value = ss := by
  rw [initSteps, if_pos (by cases ss with
    | nil => exact absurd rfl h
    | cons a t => simp)]
  apply List.ext_getElem?
  intro i
  simp only [List.getElem?_map, List.getElem?_mapIdx, Option.map_map]
  cases ss[i]? <;> rfl

lemma initSteps_length (formId : String) (ss : List String) :
    1 ≤ (initSteps formId ss).length := by
  by_cases h : ss.length = 0
  · have hnil : ss = [] := List.length_eq_zero.mp h
    subst hnil
    simp [initSteps]
  · rw [initSteps, if_pos (by omega)]
    simp only [List.length_mapIdx]
    omega

lemma normalizeSteps_initSteps (formId : String) (ss : List String) :
    normalizeSteps (initSteps formId ss) = normalizeStrings ss := by
  by_cases h : ss = []
  · subst h; rfl
  · have hm : (initSteps formId ss).map (fun s => jsTrim s.value)
        = ((initSteps formId ss).map Step.value).map jsTrim := by
      rw [List.map_map]
      rfl
    rw [normalizeSteps, hm, initSteps_map_value formId ss h, normalizeStrings]

lemma length_le_filter_ne (steps : List Step) (id : String)
    (h : (steps.map Step.id).Nodup) :
    steps.length ≤ (steps.filter (fun s => s.id != id)).length + 1 := by
  induction steps with
  | nil => simp
  | cons s t ih =>
    simp only [List.map_cons, List.nodup_cons] at h
    obtain ⟨hs, ht⟩ := h
    by_cases hid : s.id = id
    · have hall : t.filter (fun x => x.id != id) = t := by
        apply List.filter_eq_self.mpr
        intro x hx
        simp only [bne_iff_ne, ne_eq]
        intro hxid
        apply hs
        rw [hid, ← hxid]
        exact List.mem_map_of_mem Step.id hx
      simp [List.filter_cons, hid, hall]
    · have hbne : (s.id != id) = true := by simp [bne_iff_ne, hid]
      have hrec := ih ht
      simp only [List.filter_cons, hbne, if_true, List.length_cons]
      omega

lemma handleStepChange_map_id (steps : List Step) (id v : String) :
    (handleStepChange steps id v).map Step.id = steps.map Step.id := by
  rw [handleStepChange, List.map_map]
  apply List.map_congr_left
  intro s _
  simp only [Function.comp_apply]
  split <;> rfl

lemma handleStepChange_length (steps : List Step) (id v : String) :
    (handleStepChange steps id v).length = steps.length := by
  simp [handleStepChange]

lemma sessionInv_init (formId : String) (f : Feature) :
    SessionInv (initState formId f) := by
  refine ⟨?_, ?_, ?_, ?_, ?_⟩
  · show ((initSteps formId f.steps).map Step.id).Nodup
    rw [initSteps_map_id]
    exact List.Nodup.map (mkStepId_injective formId) (List.nodup_range _)
  · show ∀ s ∈ initSteps formId f.steps, s.id ∈ (initSteps formId f.steps).map Step.id
    intro s hs
    exact List.mem_map_of_mem Step.id hs
  · show ∀ u ∈ (initSteps formId f.steps).map Step.id,
      ∃ k, k < initCounter f.steps ∧ u = mkStepId formId k
    intro u hu
    rw [initSteps_map_id] at hu
    obtain ⟨k, hk, rfl⟩ := List.mem_map.mp hu
    exact ⟨k, List.mem_range.mp hk, rfl⟩
  · exact initSteps_length formId f.steps
  · rfl

lemma sessionInv_step (st : SessionState) (e : Event) (h : SessionInv st) :
    SessionInv (applyEvent st e) := by
  obtain ⟨h1, h2, h3, h4, h5⟩ := h
  cases e with
  | setCategory s => exact ⟨h1, h2, h3, h4, h5⟩
  | setName s => exact ⟨h1, h2, h3, h4, h5⟩
  | setDescription s => exact ⟨h1, h2, h3, h4, h5⟩
  | setPriority s => exact ⟨h1, h2, h3, h4, h5⟩
  | addStepClick =>
    refine ⟨?_, ?_, ?_, ?_, ?_⟩
    · show ((handleAddStep st.buffer.steps st.formId st.stepCounter).map Step.id).Nodup
      rw [handleAddStep, List.map_append]
      refine List.Nodup.append h1 (List.nodup_singleton _) ?_
      intro a ha hb
      simp only [List.map_cons, List.map_nil, List.mem_singleton] at hb
      subst hb
      obtain ⟨s, hs, hsid⟩ := List.mem_map.mp ha
      obtain ⟨k, hk, hku⟩ := h3 s.id (h2 s hs)
      rw [hsid] at hku
      have hkc := mkStepId_inj st.formId hku
      omega
    · intro s hs
      rw [show (applyEvent st Event.addStepClick).buffer.steps
          = handleAddStep st.buffer.steps st.formId st.stepCounter from rfl,
        handleAddStep] at hs
      rcases List.mem_append.mp hs with hs | hs
      · exact List.mem_append.mpr (Or.inl (h2 s hs))
      · simp only [List.mem_singleton] at hs
        subst hs
        exact List.mem_append.mpr (Or.inr (by simp))
    · show ∀ u ∈ st.usedIds ++ [mkStepId st.formId st.stepCounter],
        ∃ k, k < st.stepCounter + 1 ∧ u = mkStepId st.formId k
      intro u hu
      rcases List.mem_append.mp hu with hu | hu
      · obtain ⟨k, hk, hku⟩ := h3 u hu
        exact ⟨k, by omega, hku⟩
      · simp only [List.mem_singleton] at hu
        subst hu
        exact ⟨st.stepCounter, by omega, rfl⟩
    · show 1 ≤ (handleAddStep st.buffer.steps st.formId st.stepCounter).length
      rw [handleAddStep]
      simp only [List.length_append, List.length_cons, List.length_nil]
      omega
    · exact h5
  | removeStepClick id =>
    simp only [applyEvent]
    by_cases hg : st.buffer.steps.length > 1
    · rw [if_pos hg]
      refine ⟨?_, ?_, ?_, ?_, ?_⟩
      · show ((handleRemoveStep st.buffer.steps id).map Step.id).Nodup
        exact List.Nodup.sublist (List.Sublist.map Step.id (List.filter_sublist _)) h1
      · intro s hs
        exact h2 s (List.mem_of_mem_filter hs)
      · exact h3
      · show 1 ≤ (handleRemoveStep st.buffer.steps id).length
        have hlen := length_le_filter_ne st.buffer.steps id h1
        rw [handleRemoveStep]
        omega
      · exact h5
    · rw [if_neg hg]
      exact ⟨h1, h2, h3, h4, h5⟩
  | stepEdit id v =>
    refine ⟨?_, ?_, ?_, ?_, ?_⟩
    · show ((handleStepChange st.buffer.steps id v).map Step.id).Nodup
      rw [handleStepChange_map_id]
      exact h1
    · intro s hs
      rw [show (applyEvent st (Event.stepEdit id v)).buffer.steps
          = handleStepChange st.buffer.steps id v from rfl, handleStepChange] at hs
      obtain ⟨x, hx, hxs⟩ := List.mem_map.mp hs
      have hid : s.id = x.id := by
        subst hxs
        split <;> rfl
      rw [hid]
      exact h2 x hx
    · exact h3
    · show 1 ≤ (handleStepChange st.buffer.steps id v).length
      rw [handleStepChange_length]
      exact h4
    · exact h5
  | submitClick =>
    simp only [applyEvent]
    by_cases hg : (isValid st.buffer && hasChanges st.feature st.buffer
        && !st.submitting) = true
    · rw [if_pos hg]
      refine ⟨h1, h2, h3, h4, ?_⟩
      have hns : st.submitting = false := by
        cases hsub : st.submitting with
        | false => rfl
        | true => rw [hsub] at hg; simp at hg
      rw [hns] at h5
      simp only [Bool.false_eq_true, if_false, Nat.add_zero] at h5
      simp [List.length_append, h5]
    · rw [if_neg hg]
      exact ⟨h1, h2, h3, h4, h5⟩
  | mutationSettled o =>
    cases o with
    | success =>
      simp only [applyEvent]
      by_cases hs : st.submitting = true
      · rw [if_pos hs]
        refine ⟨h1, h2, h3, h4, ?_⟩
        rw [hs] at h5
        simp only [if_true] at h5
        simp [h5]
      · rw [if_neg hs]
        exact ⟨h1, h2, h3, h4, h5⟩
    | failure m =>
      simp only [applyEvent]
      by_cases hs : st.submitting = true
      · rw [if_pos hs]
        refine ⟨h1, h2, h3, h4, ?_⟩
        rw [hs] at h5
        simp only [if_true] at h5
        simp [h5]
      · rw [if_neg hs]
        exact ⟨h1, h2, h3, h4, h5⟩
  | dismissError => exact ⟨h1, h2, h3, h4, h5⟩
  | cancelClick => exact ⟨h1, h2, h3, h4, h5⟩

lemma sessionInv_reachable {formId : String} {f : Feature} {st : SessionState}
    (h : Reachable formId f st) : SessionInv st := by
  induction h with
  | init => exact sessionInv_init formId f
  | step st e _ ih => exact sessionInv_step st e ih

/-- C1: `hasChanges` is true if and only if at least one of the five
comparison axes differs — trimmed category vs original category, trimmed
name vs original name, trimmed description vs original description, the
base-10 integer parse of the priority text (with the not-a-number sentinel,
which never equals any integer) vs the original priority, or the
normalized step value sequence vs the original step sequence under
ordered, element-wise, length-sensitive string equality — for every buffer
state and every original Feature snapshot. -/
theorem hasChanges_iff_axesDiffer (f : Feature) (b : EditBuffer) :
    hasChanges f b = true ↔ axesDiffer f b := by
  simp [hasChanges, axesDiffer, bne_iff_ne]
  tauto

/-- C5: `isValid` is true iff the trimmed category, trimmed name and
trimmed description are all non-empty; in particular it is independent of
the priority text and of the step entries. -/
theorem isValid_iff_trimmed_nonempty (b : EditBuffer) :
    (isValid b = true ↔
      (jsTrim b.category ≠ "" ∧ jsTrim b.name ≠ "" ∧ jsTrim b.description ≠ "")) ∧
    (∀ (p : String) (ss : List Step),
      isValid { b with priority := p, steps := ss } = isValid b) := by
  constructor
  · simp [isValid, bne_iff_ne]
    tauto
  · intro p ss
    rfl

/-- C9: for an original Feature whose step sequence is empty, initialization
yields exactly one step entry whose value is the empty string, and
normalizing that untouched buffer yields the empty sequence. -/
theorem initSteps_of_empty (formId : String) :
    initSteps formId [] = [{ id := mkStepId formId 0, value := "" }] ∧
    normalizeSteps (initSteps formId []) = [] :=
  ⟨rfl, rfl⟩

/-- C4 as stated is false on the code: the input sequence `[" a "]` is
non-empty and has no blank entries, yet initialize-then-normalize returns
`["a"]`, not the input — normalization trims, initialization does not. -/
theorem initSteps_normalize_not_roundtrip :
    (([" a "] : List String) ≠ []) ∧
    (∀ s ∈ ([" a "] : List String), jsTrim s ≠ "") ∧
    normalizeSteps (initSteps "form" [" a "]) ≠ [" a "] := by
  refine ⟨by decide, by decide, by decide⟩

/-- C4 amended: for every non-empty input sequence of strings with no
blank entries, each of which equals its own trimmed form, applying
initialize and then normalize with no intervening edits returns the input
sequence exactly. -/
theorem initSteps_normalize_roundtrip (formId : String) (ss : List String)
    (_hne : ss ≠ []) (h : ∀ s ∈ ss, jsTrim s = s ∧ s ≠ "") :
    normalizeSteps (initSteps formId ss) = ss := by
  rw [normalizeSteps_initSteps, normalizeStrings]
  have h1 : ss.map jsTrim = ss.map id := List.map_congr_left (fun s hs => (h s hs).1)
  rw [h1, List.map_id]
  apply List.filter_eq_self.mpr
  intro s hs
  simpa [bne_iff_ne] using (h s hs).2

/-- Witness: the amended C4 round-trip at a concrete input. -/
theorem initSteps_normalize_roundtrip_witness :
    normalizeSteps (initSteps "form" ["click", "type"]) = ["click", "type"] :=
  initSteps_normalize_roundtrip "form" ["click", "type"] (by decide) (by decide)

/-- C10: at session start, before any edit, `hasChanges` is false iff the
original Feature is already canonical — category, name and description
each equal their own trimmed form, the rendered priority text parses back
to the original priority, and the original step sequence equals its own
normalization. -/
theorem initial_hasChanges_iff_canonical (formId : String) (f : Feature) :
    hasChanges f (initBuffer formId f) = false ↔
      (jsTrim f.category = f.category ∧ jsTrim f.name = f.name ∧
       jsTrim f.description = f.description ∧
       jsParseInt (toString f.priority) = some f.priority ∧
       normalizeStrings f.steps = f.steps) := by
  simp [hasChanges, initBuffer, normalizeSteps_initSteps]
  tauto

/-- C7: when the external mutation call fails while in flight, the session
reports the failure's message when one is available and the generic
fallback text otherwise, leaves the submitting flag cleared, keeps the
edit buffer (scalars and step entries) untouched, and invokes neither
onSaved nor onClose. -/
theorem mutation_failure_preserves_buffer (st : SessionState) (m : Option String)
    (h : st.submitting = true) :
    (applyEvent st (Event.mutationSettled (MutationOutcome.failure m))).errorMessage =
      some (m.getD "Failed to update feature") ∧
    (applyEvent st (Event.mutationSettled (MutationOutcome.failure m))).submitting = false ∧
    (applyEvent st (Event.mutationSettled (MutationOutcome.failure m))).buffer = st.buffer ∧
    (applyEvent st (Event.mutationSettled (MutationOutcome.failure m))).savedCalls
      = st.savedCalls ∧
    (applyEvent st (Event.mutationSettled (MutationOutcome.failure m))).closeCalls
      = st.closeCalls := by
  simp [applyEvent, h]

/-- Witness: C7 at a concrete in-flight state with message "network error". -/
theorem mutation_failure_preserves_buffer_witness :
    (applyEvent stInFlight
      (Event.mutationSettled (MutationOutcome.failure (some "network error")))).errorMessage
        = some "network error" ∧
    (applyEvent stInFlight
      (Event.mutationSettled (MutationOutcome.failure (some "network error")))).buffer
        = stInFlight.buffer :=
  ⟨(mutation_failure_preserves_buffer stInFlight (some "network error") rfl).1,
   (mutation_failure_preserves_buffer stInFlight (some "network error") rfl).2.2.1⟩

/-- C8: updating a step only changes the value of the entry whose id
matches — every id, every other entry's value, the length and the relative
order are untouched — and when the id matches no entry, both updating and
removing return the list unchanged. -/
theorem updateStep_frame (steps : List Step) (id v : String) :
    (handleStepChange steps id v).length = steps.length ∧
    (handleStepChange steps id v).map Step.id = steps.map Step.id ∧
    (∀ i : Nat, (handleStepChange steps id v)[i]? =
      steps[i]?.map (fun s => if s.id == id then { id := s.id, value := v } else s)) ∧
    ((∀ s ∈ steps, s.id ≠ id) →
      handleStepChange steps id v = steps ∧ handleRemoveStep steps id = steps) := by
  refine ⟨handleStepChange_length steps id v, handleStepChange_map_id steps id v, ?_, ?_⟩
  · intro i
    simp [handleStepChange, List.getElem?_map]
  · intro hnone
    constructor
    · rw [handleStepChange]
      have hcongr : ∀ s ∈ steps, (if s.id == id then { s with value := v } else s) = s := by
        intro s hs
        rw [if_neg (by simpa using hnone s hs)]
      rw [List.map_congr_left hcongr]
      exact List.map_id' steps
    · rw [handleRemoveStep]
      apply List.filter_eq_self.mpr
      intro s hs
      simpa [bne_iff_ne] using hnone s hs

/-- Witness: C8's missing-id clause at a concrete two-row list. -/
theorem updateStep_frame_witness :
    handleStepChange twoSteps "zzz" "new" = twoSteps ∧
    handleRemoveStep twoSteps "zzz" = twoSteps :=
  (updateStep_frame twoSteps "zzz" "new").2.2.2 (by decide)

/-- C3: on every reachable session state, a remove event on a length-1
step list is a no-op (the remove button is not rendered for the last row),
and the step list's length stays at least 1 before and after every event. -/
theorem removeStep_keeps_nonempty {formId : String} {f : Feature} {st : SessionState}
    (h : Reachable formId f st) (id : String) :
    (st.buffer.steps.length = 1 → applyEvent st (Event.removeStepClick id) = st) ∧
    1 ≤ st.buffer.steps.length ∧
    (∀ e : Event, 1 ≤ (applyEvent st e).buffer.steps.length) := by
  refine ⟨?_, (sessionInv_reachable h).2.2.2.1, ?_⟩
  · intro hlen
    simp only [applyEvent]
    rw [if_neg (by omega)]
  · intro e
    exact (sessionInv_step st e (sessionInv_reachable h)).2.2.2.1

/-- Witness: C3 at the initial state of a zero-step feature, whose step
list has exactly one row. -/
theorem removeStep_keeps_nonempty_witness :
    applyEvent (initState "form" featZero) (Event.removeStepClick "form-step-0")
      = initState "form" featZero ∧
    1 ≤ (initState "form" featZero).buffer.steps.length :=
  ⟨(removeStep_keeps_nonempty Reachable.init "form-step-0").1 rfl,
   (removeStep_keeps_nonempty Reachable.init "form-step-0").2.1⟩

/-- C6: on every reachable session state the step-list ids are pairwise
distinct, every listed id was created in this session, the id the next
add-step will mint differs from every id ever present in the session (ids
of removed entries included — ids are never reused), the add-step
transition appends exactly that id, and distinctness persists across it. -/
theorem step_ids_unique {formId : String} {f : Feature} {st : SessionState}
    (h : Reachable formId f st) :
    (st.buffer.steps.map Step.id).Nodup ∧
    (∀ s ∈ st.buffer.steps, s.id ∈ st.usedIds) ∧
    mkStepId st.formId st.stepCounter ∉ st.usedIds ∧
    (applyEvent st Event.addStepClick).buffer.steps
      = st.buffer.steps ++ [{ id := mkStepId st.formId st.stepCounter, value := "" }] ∧
    ((applyEvent st Event.addStepClick).buffer.steps.map Step.id).Nodup := by
  obtain ⟨h1, h2, h3, h4, h5⟩ := sessionInv_reachable h
  refine ⟨h1, h2, ?_, rfl, ?_⟩
  · intro hmem
    obtain ⟨k, hk, hku⟩ := h3 _ hmem
    have hkc := mkStepId_inj st.formId hku
    omega
  · exact (sessionInv_step st Event.addStepClick ⟨h1, h2, h3, h4, h5⟩).1

/-- Witness: C6 at the initial state of a three-step feature. -/
theorem step_ids_unique_witness :
    ((initState "form" featThree).buffer.steps.map Step.id).Nodup ∧
    mkStepId (initState "form" featThree).formId (initState "form" featThree).stepCounter
      ∉ (initState "form" featThree).usedIds :=
  ⟨(step_ids_unique Reachable.init).1, (step_ids_unique Reachable.init).2.2.1⟩

/-- C2: on every reachable session state, the number of mutation calls
issued equals the settled ones plus the one possibly in flight (so at most
one is ever outstanding), and an event that issues a new mutation call can
only be the submit click, fired with `isValid` true, `hasChanges` true and
no submission already in flight, and it enters the in-flight state. -/
theorem submit_gate {formId : String} {f : Feature} {st : SessionState}
    (h : Reachable formId f st) :
    (st.requests.length = st.resolved + (if st.submitting then 1 else 0)) ∧
    st.requests.length ≤ st.resolved + 1 ∧
    (∀ e : Event, st.requests.length < (applyEvent st e).requests.length →
      (isValid st.buffer = true ∧ hasChanges st.feature st.buffer = true ∧
       st.submitting = false ∧ e = Event.submitClick ∧
       (applyEvent st e).submitting = true)) := by
  have h5 := (sessionInv_reachable h).2.2.2.2
  refine ⟨h5, ?_, ?_⟩
  · by_cases hsub : st.submitting = true <;> simp [hsub] at h5 <;> omega
  · intro e he
    cases e with
    | setCategory s => simp only [applyEvent] at he; omega
    | setName s => simp only [applyEvent] at he; omega
    | setDescription s => simp only [applyEvent] at he; omega
    | setPriority s => simp only [applyEvent] at he; omega
    | addStepClick => simp only [applyEvent] at he; omega
    | removeStepClick id =>
      simp only [applyEvent] at he
      split at he <;> simp at he
    | stepEdit id v => simp only [applyEvent] at he; omega
    | submitClick =>
      simp only [applyEvent] at he ⊢
      by_cases hg : (isValid st.buffer && hasChanges st.feature st.buffer
          && !st.submitting) = true
      · rw [if_pos hg] at he ⊢
        have hg' := hg
        simp only [Bool.and_eq_true] at hg'
        obtain ⟨⟨hv, hc⟩, hns'⟩ := hg'
        have hns : st.submitting = false := by
          cases hsub : st.submitting with
          | false => rfl
          | true => rw [hsub] at hns'; simp at hns'
        refine ⟨hv, hc, hns, ?_, ?_⟩ <;> trivial
      · rw [if_neg hg] at he
        omega
    | mutationSettled o =>
      cases o with
      | success =>
        simp only [applyEvent] at he
        split at he <;> simp at he
      | failure m =>
        simp only [applyEvent] at he
        split at he <;> simp at he
    | dismissError => simp only [applyEvent] at he; omega
    | cancelClick => simp only [applyEvent] at he; omega

/-- Witness: C2's accounting at the initial state of a concrete session. -/
theorem submit_gate_witness :
    (initState "form" featThree).requests.length =
      (initState "form" featThree).resolved +
        (if (initState "form" featThree).submitting then 1 else 0) ∧
    (initState "form" featThree).requests.length
      ≤ (initState "form" featThree).resolved + 1 :=
  ⟨(submit_gate Reachable.init).1, (submit_gate Reachable.init).2.1⟩
